import Mathlib

/-!
Shallow embedding of the DrankSpel domain module (`domein.py`) and its JSON
persistence layer (`persistentie.py`), together with theorems settling the
specification claims about them.

Python exceptions are modelled by `Except String`; every mutating method is
embedded as a state-passing function returning the post-state together with
the `Except` result, so that a method that raises after mutating is visibly
distinct from one that raises before mutating.  Python list slicing and
(possibly negative) list indexing are embedded explicitly.
-/

namespace DrankSpel

/-- `Card`: a frozen dataclass holding a rank and a suit. -/
structure Card where
  rank : String
  suit : String
deriving DecidableEq

/-- `Deck.ranks`. -/
def deckRanks : List String :=
  ["A", "2", "3", "4", "5", "6", "7", "8", "9", "10", "J", "Q", "K"]

/-- `Deck.suits`. -/
def deckSuits : List String :=
  ["hearts", "diamonds", "clubs", "spades"]

/-- A `Deck` holds a mutable list of cards. -/
structure Deck where
  cards : List Card
deriving DecidableEq

/-- The card list built by `Deck.__init__`:
`[Card(rank, suit) for suit in self.suits for rank in self.ranks]`. -/
def Deck.newCards : List Card :=
  deckSuits.flatMap (fun s => deckRanks.map (fun r => ⟨r, s⟩))

/-- `Deck.__init__` raises `ValueError` unless the fresh deck has 52 cards. -/
def Deck.new : Except String Deck :=
  if Deck.newCards.length ≠ 52 then .error "Deck must contain 52 cards"
  else .ok ⟨Deck.newCards⟩

/-- Python slice `l[:n]` for an `int` bound `n`: a non-negative bound takes
the first `n` elements (truncated at the length), a negative bound takes
`len(l) + n` elements (clamped at zero). -/
def pyTakeTo (n : Int) (l : List α) : List α :=
  if 0 ≤ n then l.take n.toNat else l.take (l.length - (-n).toNat)

/-- Python `del l[:n]`: what remains after removing the slice `l[:n]`. -/
def pyDropTo (n : Int) (l : List α) : List α :=
  if 0 ≤ n then l.drop n.toNat else l.drop (l.length - (-n).toNat)

/-- Python indexing `l[i]` for an `int` index `i`: non-negative indices are
direct, negative indices count from the end; out of `-len ≤ i < len` the
access raises `IndexError` (here: `none`). -/
def pyGetI (l : List α) (i : Int) : Option α :=
  if 0 ≤ i then l.get? i.toNat
  else if (-i) ≤ (l.length : Int) then l.get? (l.length - (-i).toNat)
  else none

/-- `Deck.deal(n)`: raises `ValueError` when `n` exceeds the remaining
count, otherwise removes and returns the slice `cards[:n]`. -/
def Deck.deal (n : Int) (d : Deck) : Deck × Except String (List Card) :=
  if (d.cards.length : Int) < n then (d, .error "Not enough cards to deal")
  else (⟨pyDropTo n d.cards⟩, .ok (pyTakeTo n d.cards))

/-- A `Player`: name, hand, set of revealed hand indices, drink count. -/
structure Player where
  name : String
  hand : List Card
  revealed_indices : Finset Int
  drinks_taken : Int
deriving DecidableEq

/-- `Player.__init__(name)`. -/
def Player.new (name : String) : Player :=
  ⟨name, [], ∅, 0⟩

/-- `Player.receive(cards)`: extends the hand. -/
def Player.receive (cards : List Card) (p : Player) : Player :=
  { p with hand := p.hand ++ cards }

/-- `Player.reveal(index)`: first adds `index` to `revealed_indices`, then
returns `self.hand[index]` — which raises `IndexError` when the index is
out of Python bounds, after the set has already been mutated. -/
def Player.reveal (index : Int) (p : Player) : Player × Except String Card :=
  let p' := { p with revealed_indices := insert index p.revealed_indices }
  match pyGetI p.hand index with
  | some c => (p', .ok c)
  | none => (p', .error "IndexError")

/-- `Player.drink(amount)`. -/
def Player.drink (amount : Int) (p : Player) : Player :=
  { p with drinks_taken := p.drinks_taken + amount }

/-- A `Pyramid`: rows stored bottom row first, plus the `_row`/`_col`
cursor of the next card to reveal. -/
structure Pyramid where
  rows : List (List Card)
  row : Nat
  col : Nat
deriving DecidableEq

/-- The row-building loop of `Pyramid.__init__`: slices of sizes
`rows, rows-1, …, 1` taken from the front of `cards` (Python slices
truncate silently when `cards` is short). -/
def buildRows (cards : List Card) : Nat → List (List Card)
  | 0 => []
  | n + 1 => cards.take (n + 1) :: buildRows (cards.drop (n + 1)) n

/-- `Pyramid.__init__(cards, rows)`. -/
def Pyramid.make (cards : List Card) (rows : Nat) : Pyramid :=
  ⟨buildRows cards rows, 0, 0⟩

/-- `Pyramid.next_card()`: returns `None` once `_row` has passed the last
row; otherwise reads `rows[_row][_col]` (an out-of-range column would
raise `IndexError`), then advances the cursor in row-major order. -/
def Pyramid.next_card (p : Pyramid) : Pyramid × Except String (Option Card) :=
  if h : p.row < p.rows.length then
    let r := p.rows.get ⟨p.row, h⟩
    match r.get? p.col with
    | none => (p, .error "IndexError")
    | some c =>
        if r.length ≤ p.col + 1 then ({ p with row := p.row + 1, col := 0 }, .ok (some c))
        else ({ p with col := p.col + 1 }, .ok (some c))
  else (p, .ok none)

/-- A `Game`: the players, the pyramid, the rest stack, and the (fully
consumed) deck object the constructor keeps around. -/
structure Game where
  players : List Player
  pyramid : Pyramid
  rest_stapel : List Card
  deck : Deck
deriving DecidableEq

/-- `Game._max_pyramid_rows(remaining)`:
`(math.isqrt(8 * remaining + 1) - 1) // 2`. -/
def Game.max_pyramid_rows (remaining : Nat) : Nat :=
  (Nat.sqrt (8 * remaining + 1) - 1) / 2

/-- The dealing loop of `Game.__init__`:
`for player in self.players: player.receive(self.deck.deal(4))`. -/
def dealHands : List Player → Deck → Except String (List Player × Deck)
  | [], d => .ok ([], d)
  | p :: ps, d =>
    let (d', r) := d.deal 4
    match r with
    | .error e => .error e
    | .ok cs =>
      match dealHands ps d' with
      | .error e => .error e
      | .ok (ps', d'') => .ok (p.receive cs :: ps', d'')

/-- `Game.__init__(player_names)`.  The random `shuffle()` is modelled by
taking the post-shuffle card order `shuffled` as a parameter; theorems
assume it is a permutation of the freshly built deck. -/
def Game.init (shuffled : List Card) (player_names : List String) :
    Except String Game :=
  if ¬ (2 ≤ player_names.length ∧ player_names.length ≤ 12) then
    .error "minstens 2, max 12 spelers voor 4 kaarten pp"
  else
    match Deck.new with
    | .error e => .error e
    | .ok _ =>
      let deck : Deck := ⟨shuffled⟩
      match dealHands (player_names.map Player.new) deck with
      | .error e => .error e
      | .ok (players, deck1) =>
        let remaining := deck1.cards.length
        let rows := Game.max_pyramid_rows remaining
        let (deck2, r2) := deck1.deal ((rows * (rows + 1) / 2 : Nat) : Int)
        match r2 with
        | .error e => .error e
        | .ok pyramid_cards =>
          let pyramid := Pyramid.make pyramid_cards rows
          let (deck3, r3) := deck2.deal (deck2.cards.length : Int)
          match r3 with
          | .error e => .error e
          | .ok rest => .ok ⟨players, pyramid, rest, deck3⟩

/-- `Game.reveal_next_card()`: delegates to `Pyramid.next_card()`. -/
def Game.reveal_next_card (g : Game) : Game × Except String (Option Card) :=
  let (p', r) := g.pyramid.next_card
  ({ g with pyramid := p' }, r)

/-- Read the player at position `i` of the game's player list. -/
def Game.player (g : Game) (i : Nat) : Player :=
  g.players.getD i (Player.new "")

/-- Replace the player at position `i` (no-op when out of range). -/
def Game.setPlayer (g : Game) (i : Nat) (p : Player) : Game :=
  { g with players := g.players.set i p }

/-- `Game.play_turn(claimer, target, chosen_index, target_believes)`.
The claimer and target arguments are positions in `g.players` (the shells
pass elements of that list); `none` stands for Python `None`. -/
def Game.play_turn (g : Game) (claimer target : Option Nat)
    (chosen_index : Option Int) (target_believes : Bool) :
    Game × Except String (Card × Option String) :=
  let (g1, r) := g.reveal_next_card
  match r with
  | .error e => (g1, .error e)
  | .ok none => (g1, .error "No more cards in the pyramid")
  | .ok (some card) =>
    match claimer, target, chosen_index with
    | some ci, some ti, some idx =>
      if target_believes then
        let g2 := g1.setPlayer ti ((g1.player ti).drink 1)
        (g2, .ok (card, some ((g1.player ti).name ++ " drinkt 1")))
      else
        let (cl', rv) := (g1.player ci).reveal idx
        let g2 := g1.setPlayer ci cl'
        match rv with
        | .error e => (g2, .error e)
        | .ok shown =>
          if shown.rank = card.rank then
            let g3 := g2.setPlayer ti ((g2.player ti).drink 2)
            (g3, .ok (card, some ((g2.player ti).name ++ " drinkt 2")))
          else
            let g3 := g2.setPlayer ci ((g2.player ci).drink 2)
            (g3, .ok (card, some ((g2.player ci).name ++ " drinkt 2")))
    | _, _, _ => (g1, .ok (card, none))

/-- The per-player part of the JSON document written by `save_game`
(cards survive the `[rank, suit]` round trip unchanged, and the revealed
list is read back into a set, so the set itself is the persisted value). -/
structure PlayerData where
  name : String
  hand : List Card
  revealed : Finset Int
  drinks_taken : Int
deriving DecidableEq

/-- The JSON document written by `save_game`. -/
structure SaveData where
  players : List PlayerData
  pyramidRows : List (List Card)
  posRow : Nat
  posCol : Nat
  rest_stapel : List Card
deriving DecidableEq

/-- `save_game(game, filename)`: the serialized state. -/
def save_game (g : Game) : SaveData :=
  ⟨g.players.map (fun p => ⟨p.name, p.hand, p.revealed_indices, p.drinks_taken⟩),
   g.pyramid.rows, g.pyramid.row, g.pyramid.col, g.rest_stapel⟩

/-- `load_game(filename)`: rebuilds a `Game` from the saved names (with a
fresh shuffled deck, here again a parameter), then overwrites hands,
revealed sets, drink counts, pyramid rows, cursor, and rest stack with
the persisted values. -/
def load_game (shuffled : List Card) (data : SaveData) : Except String Game :=
  match Game.init shuffled (data.players.map (·.name)) with
  | .error e => .error e
  | .ok g =>
    let players := List.zipWith
      (fun (d : PlayerData) (p : Player) =>
        { p with hand := d.hand, revealed_indices := d.revealed,
                 drinks_taken := d.drinks_taken })
      data.players g.players
    let cards := data.pyramidRows.flatten
    let rows := data.pyramidRows.length
    let py0 := Pyramid.make cards rows
    let py : Pyramid := ⟨data.pyramidRows, data.posRow, data.posCol⟩
    let _ := py0
    .ok { g with players := players, pyramid := py,
                 rest_stapel := data.rest_stapel }

/-- Iterate `next_card` a given number of times, collecting results. -/
def Pyramid.reveal_seq : Nat → Pyramid → List (Except String (Option Card)) × Pyramid
  | 0, p => ([], p)
  | n + 1, p =>
    let (p1, r) := p.next_card
    let (rs, p2) := Pyramid.reveal_seq n p1
    (r :: rs, p2)

/-- The triangular number `1 + 2 + ⋯ + n`, the cell count of an `n`-row
pyramid, in recursion-friendly form. -/
def tri : Nat → Nat
  | 0 => 0
  | n + 1 => (n + 1) + tri n

/-- All cards of a pyramid in the reveal order (bottom row first, each row
left to right): the rows flattened.  Starting from the cursor, the cards
still to be revealed. -/
def Pyramid.remCells (p : Pyramid) : List Card :=
  match p.rows.drop p.row with
  | [] => []
  | r :: rs => r.drop p.col ++ rs.flatten

/-- Cursor well-formedness: the invariant `next_card` preserves and that
`Pyramid.__init__` establishes when given exactly enough cards. -/
def Pyramid.wf (p : Pyramid) : Prop :=
  p.row ≤ p.rows.length ∧
  (p.row = p.rows.length → p.col = 0) ∧
  (∀ h : p.row < p.rows.length, p.col < (p.rows.get ⟨p.row, h⟩).length) ∧
  (∀ l ∈ p.rows.drop (p.row + 1), l ≠ [])

/-! ## Arithmetic facts about `Game.max_pyramid_rows` -/

lemma max_rows_eq (r : Nat) :
    Game.max_pyramid_rows r = (Nat.sqrt (8 * r + 1) - 1) / 2 := rfl

lemma max_rows_tri_le (r : Nat) :
    Game.max_pyramid_rows r * (Game.max_pyramid_rows r + 1) ≤ 2 * r := by
  have hs1 : Nat.sqrt (8 * r + 1) * Nat.sqrt (8 * r + 1) ≤ 8 * r + 1 :=
    Nat.sqrt_le _
  have hs0 : 1 ≤ Nat.sqrt (8 * r + 1) := by
    have h := Nat.sqrt_le_sqrt (show 1 ≤ 8 * r + 1 by omega)
    simpa using h
  set s := Nat.sqrt (8 * r + 1) with hsdef
  have hm : Game.max_pyramid_rows r = (s - 1) / 2 := max_rows_eq r
  set m := Game.max_pyramid_rows r with hmdef
  have h1 : 2 * m + 1 ≤ s := by omega
  have h2 : (2 * m + 1) * (2 * m + 1) ≤ s * s := Nat.mul_le_mul h1 h1
  have h3 : 4 * (m * (m + 1)) + 1 ≤ 8 * r + 1 := by
    calc 4 * (m * (m + 1)) + 1 = (2 * m + 1) * (2 * m + 1) := by ring
    _ ≤ s * s := h2
    _ ≤ 8 * r + 1 := hs1
  linarith

lemma le_max_rows {r R : Nat} (h : R * (R + 1) / 2 ≤ r) :
    R ≤ Game.max_pyramid_rows r := by
  by_contra hc
  push_neg at hc
  have hs2 : 8 * r + 1 < (Nat.sqrt (8 * r + 1) + 1) * (Nat.sqrt (8 * r + 1) + 1) :=
    Nat.lt_succ_sqrt _
  set s := Nat.sqrt (8 * r + 1) with hsdef
  have hm : Game.max_pyramid_rows r = (s - 1) / 2 := max_rows_eq r
  set m := Game.max_pyramid_rows r with hmdef
  have h5 : s + 1 ≤ 2 * m + 3 := by omega
  have h6 : (s + 1) * (s + 1) ≤ (2 * m + 3) * (2 * m + 3) := Nat.mul_le_mul h5 h5
  have h7 : 8 * r + 1 < 4 * ((m + 1) * (m + 2)) + 1 := by
    calc 8 * r + 1 < (s + 1) * (s + 1) := hs2
    _ ≤ (2 * m + 3) * (2 * m + 3) := h6
    _ = 4 * ((m + 1) * (m + 2)) + 1 := by ring
  have h8 : 2 * r < (m + 1) * (m + 2) := by linarith
  have h9 : (m + 1) * (m + 2) ≤ R * (R + 1) := Nat.mul_le_mul (by omega) (by omega)
  obtain ⟨k, hk⟩ := Nat.even_mul_succ_self R
  have h10 : R * (R + 1) / 2 = k := by rw [hk]; omega
  have h11 : k ≤ r := h10 ▸ h
  linarith

/-- C3: the closed-form row count `(isqrt(8*remaining+1) - 1) / 2` computed
by `Game._max_pyramid_rows` over exact integers equals the largest `R` with
`R*(R+1)/2 ≤ remaining`. -/
theorem claimC3 (remaining : Nat) :
    Game.max_pyramid_rows remaining * (Game.max_pyramid_rows remaining + 1) / 2
        ≤ remaining ∧
    ∀ R : Nat, R * (R + 1) / 2 ≤ remaining → R ≤ Game.max_pyramid_rows remaining := by
  constructor
  · exact Nat.div_le_of_le_mul (by have := max_rows_tri_le remaining; linarith)
  · exact fun R h => le_max_rows h

/-- Witness for C3 at `remaining = 40`: the formula yields 8 and indeed
`8*9/2 = 36 ≤ 40` while the instantiated bound shows any `R` with
`R*(R+1)/2 ≤ 40` satisfies `R ≤ 8`. -/
theorem claimC3wit :
    Game.max_pyramid_rows 40 * (Game.max_pyramid_rows 40 + 1) / 2 ≤ 40 ∧
    8 ≤ Game.max_pyramid_rows 40 :=
  ⟨(claimC3 40).1, (claimC3 40).2 8 (by decide)⟩

/-! ## Pyramid traversal -/

lemma tri_eq (n : Nat) : tri n = n * (n + 1) / 2 := by
  induction n with
  | zero => rfl
  | succ k ih =>
    obtain ⟨j, hj⟩ := Nat.even_mul_succ_self k
    have h2 : (k + 1) * (k + 1 + 1) = k * (k + 1) + 2 * (k + 1) := by ring
    rw [tri, ih, h2, hj]
    omega

lemma buildRows_length (cards : List Card) (n : Nat) :
    (buildRows cards n).length = n := by
  induction n generalizing cards with
  | zero => rfl
  | succ k ih => rw [buildRows, List.length_cons, ih]

lemma buildRows_flatten (cards : List Card) (n : Nat) :
    (buildRows cards n).flatten = cards.take (tri n) := by
  induction n generalizing cards with
  | zero => simp [buildRows, tri]
  | succ k ih =>
    rw [buildRows, List.flatten_cons, ih, tri]
    exact (List.take_add cards (k + 1) (tri k)).symm

lemma buildRows_ne_nil {cards : List Card} {n : Nat} (h : tri n ≤ cards.length) :
    ∀ l ∈ buildRows cards n, l ≠ [] := by
  induction n generalizing cards with
  | zero => simp [buildRows]
  | succ k ih =>
    intro l hl
    rw [buildRows] at hl
    rcases List.mem_cons.mp hl with rfl | hl
    · have h1 : 0 < cards.length := by rw [tri] at h; omega
      have h2 : 0 < (cards.take (k + 1)).length := by
        rw [List.length_take]; omega
      exact List.ne_nil_of_length_pos h2
    · refine ih ?_ l hl
      rw [List.length_drop, tri] at *
      omega

lemma next_card_exhausted {p : Pyramid} (h : p.rows.length ≤ p.row) :
    p.next_card = (p, .ok none) := by
  rw [Pyramid.next_card, dif_neg]
  omega

lemma reveal_seq_exhausted {p : Pyramid} (h : p.rows.length ≤ p.row) (k : Nat) :
    Pyramid.reveal_seq k p = (List.replicate k (.ok none), p) := by
  induction k with
  | zero => simp [Pyramid.reveal_seq]
  | succ n ih =>
    rw [Pyramid.reveal_seq, next_card_exhausted h]
    simp [ih, List.replicate_succ]

lemma remCells_ne_nil {p : Pyramid} (hwf : p.wf) (h : p.row < p.rows.length) :
    p.remCells ≠ [] := by
  have hcol := hwf.2.2.1 h
  have hdrop : p.rows.drop p.row = p.rows.get ⟨p.row, h⟩ :: p.rows.drop (p.row + 1) := by
    simpa using List.drop_eq_getElem_cons h
  rw [Pyramid.remCells, hdrop]
  have h2 : 0 < ((p.rows.get ⟨p.row, h⟩).drop p.col).length := by
    rw [List.length_drop]; omega
  simp only [ne_eq, List.append_eq_nil]
  intro hc
  have := hc.1
  rw [this] at h2
  simp at h2

lemma remCells_exhausted {p : Pyramid} (h : p.rows.length ≤ p.row) :
    p.remCells = [] := by
  rw [Pyramid.remCells, List.drop_eq_nil_of_le h]

lemma remCells_eq_of_drop {p : Pyramid} {r : List Card} {rs : List (List Card)}
    (hd : p.rows.drop p.row = r :: rs) :
    p.remCells = r.drop p.col ++ rs.flatten := by
  show (match p.rows.drop p.row with
    | [] => ([] : List Card)
    | r :: rs => r.drop p.col ++ rs.flatten) = r.drop p.col ++ rs.flatten
  rw [hd]

lemma remCells_col_zero (rows : List (List Card)) (i : Nat) :
    Pyramid.remCells ⟨rows, i, 0⟩ = (rows.drop i).flatten := by
  show (match rows.drop i with
    | [] => ([] : List Card)
    | r :: rs => r.drop 0 ++ rs.flatten) = (rows.drop i).flatten
  cases rows.drop i with
  | nil => rfl
  | cons a t => simp

lemma next_card_step {p : Pyramid} (hwf : p.wf) (h : p.row < p.rows.length) :
    ∃ c p', p.next_card = (p', .ok (some c)) ∧ p'.wf ∧ p'.rows = p.rows ∧
      p.remCells = c :: p'.remCells := by
  have hcol := hwf.2.2.1 h
  set r := p.rows.get ⟨p.row, h⟩ with hr
  have hget : r.get? p.col = some (r.get ⟨p.col, hcol⟩) := List.get?_eq_get hcol
  have hdrop : p.rows.drop p.row = r :: p.rows.drop (p.row + 1) := by
    simpa [hr] using List.drop_eq_getElem_cons h
  have hrc : r.drop p.col = r.get ⟨p.col, hcol⟩ :: r.drop (p.col + 1) := by
    simpa using List.drop_eq_getElem_cons hcol
  refine ⟨r.get ⟨p.col, hcol⟩, ?_⟩
  have hrem : p.remCells = r.drop p.col ++ (p.rows.drop (p.row + 1)).flatten :=
    remCells_eq_of_drop hdrop
  by_cases hlast : r.length ≤ p.col + 1
  · refine ⟨{ p with row := p.row + 1, col := 0 }, ?_, ?_, rfl, ?_⟩
    · rw [Pyramid.next_card, dif_pos h]
      simp only [← hr, hget, if_pos hlast]
    · refine ⟨?_, fun _ => rfl, ?_, ?_⟩
      · show p.row + 1 ≤ p.rows.length
        omega
      · intro h'
        have h'' : p.row + 1 < p.rows.length := h'
        have hd2 : p.rows.drop (p.row + 1)
            = p.rows.get ⟨p.row + 1, h''⟩ :: p.rows.drop (p.row + 1 + 1) := by
          simpa using List.drop_eq_getElem_cons h''
        have hmem : p.rows.get ⟨p.row + 1, h''⟩ ∈ p.rows.drop (p.row + 1) := by
          rw [hd2]; exact List.mem_cons_self _ _
        exact List.length_pos.mpr (hwf.2.2.2 _ hmem)
      · intro l hl
        have hl' : l ∈ (p.rows.drop (p.row + 1)).drop 1 := by
          rw [List.drop_drop]
          exact hl
        exact hwf.2.2.2 l (List.mem_of_mem_drop hl')
    · have hnil : r.drop (p.col + 1) = [] := List.drop_eq_nil_of_le hlast
      have h2 : Pyramid.remCells { p with row := p.row + 1, col := 0 }
          = (p.rows.drop (p.row + 1)).flatten := remCells_col_zero p.rows (p.row + 1)
      rw [hrem, h2, hrc, hnil]
      simp
  · refine ⟨{ p with col := p.col + 1 }, ?_, ?_, rfl, ?_⟩
    · rw [Pyramid.next_card, dif_pos h]
      simp only [← hr, hget, if_neg hlast]
    · refine ⟨?_, ?_, ?_, ?_⟩
      · show p.row ≤ p.rows.length
        exact hwf.1
      · intro heq
        exact absurd (show p.row = p.rows.length from heq) (by omega)
      · intro h'
        have h'' : p.row < p.rows.length := h'
        show p.col + 1 < (p.rows.get ⟨p.row, h''⟩).length
        have hre : p.rows.get ⟨p.row, h''⟩ = r := rfl
        rw [hre]
        omega
      · intro l hl
        exact hwf.2.2.2 l hl
    · have h2 : Pyramid.remCells { p with col := p.col + 1 }
          = r.drop (p.col + 1) ++ (p.rows.drop (p.row + 1)).flatten :=
        remCells_eq_of_drop hdrop
      rw [hrem, h2, hrc, List.cons_append]

lemma reveal_seq_drain : ∀ (n : Nat) {p : Pyramid}, p.wf → p.remCells.length = n →
    Pyramid.reveal_seq n p =
      (p.remCells.map (fun c => Except.ok (some c)), ⟨p.rows, p.rows.length, 0⟩) := by
  intro n
  induction n with
  | zero =>
    intro p hwf h0
    have hnil := List.eq_nil_of_length_eq_zero h0
    have hge : p.rows.length ≤ p.row := by
      by_contra hlt
      push_neg at hlt
      exact remCells_ne_nil hwf hlt hnil
    have hrow : p.row = p.rows.length := le_antisymm hwf.1 hge
    have hcol : p.col = 0 := hwf.2.1 hrow
    rw [hnil]
    simp only [Pyramid.reveal_seq, List.map_nil]
    cases p
    simp_all
  | succ k ih =>
    intro p hwf hlen
    have hlt : p.row < p.rows.length := by
      by_contra hge
      push_neg at hge
      rw [remCells_exhausted hge] at hlen
      simp at hlen
    obtain ⟨c, p', hstep, hwf', hrows, hcons⟩ := next_card_step hwf hlt
    have hlen' : p'.remCells.length = k := by
      rw [hcons] at hlen
      simpa using hlen
    have hrec := ih hwf' hlen'
    rw [Pyramid.reveal_seq, hstep]
    simp only [hrec, hcons, hrows, List.map_cons]

lemma make_wf {cards : List Card} {R : Nat} (h : tri R ≤ cards.length) :
    (Pyramid.make cards R).wf := by
  refine ⟨Nat.zero_le _, fun _ => rfl, ?_, ?_⟩
  · intro h'
    exact List.length_pos.mpr
      (buildRows_ne_nil h _ (List.get_mem (buildRows cards R) 0 h'))
  · intro l hl
    exact buildRows_ne_nil h l (List.mem_of_mem_drop hl)

lemma make_remCells (cards : List Card) (R : Nat) :
    (Pyramid.make cards R).remCells = (buildRows cards R).flatten := by
  have h := remCells_col_zero (buildRows cards R) 0
  rw [List.drop_zero] at h
  exact h

/-- C4: a pyramid built with row count `R` from exactly `R*(R+1)/2` cards
yields, over the first `R*(R+1)/2` calls of `next_card`, every cell exactly
once in row-major bottom-up order (the flattened rows, which are exactly the
supplied cards); every later call returns `none` and leaves the state
unchanged. -/
theorem claimC4 (cards : List Card) (R : Nat)
    (h : cards.length = R * (R + 1) / 2) :
    (Pyramid.reveal_seq (R * (R + 1) / 2) (Pyramid.make cards R)).1
        = cards.map (fun c => Except.ok (some c)) ∧
    (Pyramid.make cards R).rows.flatten = cards ∧
    ∀ k, Pyramid.reveal_seq k
        (Pyramid.reveal_seq (R * (R + 1) / 2) (Pyramid.make cards R)).2
      = (List.replicate k (Except.ok none),
         (Pyramid.reveal_seq (R * (R + 1) / 2) (Pyramid.make cards R)).2) := by
  have htr : cards.length = tri R := by rw [tri_eq]; exact h
  have hfl : (Pyramid.make cards R).rows.flatten = cards := by
    have hb := buildRows_flatten cards R
    rw [← htr, List.take_length] at hb
    exact hb
  have hrc : (Pyramid.make cards R).remCells = cards := by
    rw [make_remCells]
    exact hfl
  have hwf := make_wf (le_of_eq htr.symm)
  have hdrain := reveal_seq_drain (R * (R + 1) / 2) hwf
    (by rw [hrc, htr, tri_eq])
  refine ⟨?_, hfl, ?_⟩
  · rw [hdrain, hrc]
  · intro k
    rw [hdrain]
    exact reveal_seq_exhausted (le_refl _) k

/-- Witness for C4: three cards form a two-row pyramid; the three reveals
return exactly those cards in order. -/
theorem claimC4wit :
    (Pyramid.reveal_seq 3 (Pyramid.make (Deck.newCards.take 3) 2)).1
      = (Deck.newCards.take 3).map (fun c => Except.ok (some c)) :=
  (claimC4 (Deck.newCards.take 3) 2 rfl).1

/-! ## Unfolding lemmas for `Game.play_turn` -/

lemma reveal_next_card_eq {g : Game} {py' : Pyramid} {r : Except String (Option Card)}
    (hp : g.pyramid.next_card = (py', r)) :
    g.reveal_next_card = ({ g with pyramid := py' }, r) := by
  rw [Game.reveal_next_card, hp]

lemma play_turn_nc_error {g : Game} {c t : Option Nat} {i : Option Int} {b : Bool}
    {py' : Pyramid} {e : String} (hp : g.pyramid.next_card = (py', .error e)) :
    g.play_turn c t i b = ({ g with pyramid := py' }, .error e) := by
  rw [Game.play_turn, reveal_next_card_eq hp]

lemma play_turn_exhausted {g : Game} {c t : Option Nat} {i : Option Int} {b : Bool}
    {py' : Pyramid} (hp : g.pyramid.next_card = (py', .ok none)) :
    g.play_turn c t i b = ({ g with pyramid := py' }, .error "No more cards in the pyramid") := by
  rw [Game.play_turn, reveal_next_card_eq hp]

lemma play_turn_pass {g : Game} {c t : Option Nat} {i : Option Int} {b : Bool}
    {py' : Pyramid} {card : Card} (hp : g.pyramid.next_card = (py', .ok (some card)))
    (habs : c = none ∨ t = none ∨ i = none) :
    g.play_turn c t i b = ({ g with pyramid := py' }, .ok (card, none)) := by
  rw [Game.play_turn, reveal_next_card_eq hp]
  rcases habs with rfl | rfl | rfl
  · cases t <;> cases i <;> rfl
  · cases c <;> cases i <;> rfl
  · cases c <;> cases t <;> rfl

lemma play_turn_believes {g : Game} {ci ti : Nat} {idx : Int} {card : Card}
    {py' : Pyramid} (hp : g.pyramid.next_card = (py', .ok (some card))) :
    g.play_turn (some ci) (some ti) (some idx) true
      = (Game.setPlayer { g with pyramid := py' } ti
           ((Game.player { g with pyramid := py' } ti).drink 1),
         .ok (card, some ((Game.player { g with pyramid := py' } ti).name ++ " drinkt 1"))) := by
  rw [Game.play_turn, reveal_next_card_eq hp]
  rfl

lemma play_turn_challenge_err {g : Game} {ci ti : Nat} {idx : Int} {card : Card}
    {py' : Pyramid} {cl' : Player} {e : String}
    (hp : g.pyramid.next_card = (py', .ok (some card)))
    (hrev : (Game.player { g with pyramid := py' } ci).reveal idx = (cl', .error e)) :
    g.play_turn (some ci) (some ti) (some idx) false
      = (Game.setPlayer { g with pyramid := py' } ci cl', .error e) := by
  rw [Game.play_turn, reveal_next_card_eq hp]
  simp only [hrev]
  rfl

lemma play_turn_challenge_ok {g : Game} {ci ti : Nat} {idx : Int} {card : Card}
    {py' : Pyramid} {cl' : Player} {shown : Card}
    (hp : g.pyramid.next_card = (py', .ok (some card)))
    (hrev : (Game.player { g with pyramid := py' } ci).reveal idx = (cl', .ok shown)) :
    g.play_turn (some ci) (some ti) (some idx) false
      = (let g2 := Game.setPlayer { g with pyramid := py' } ci cl'
         if shown.rank = card.rank then
           (g2.setPlayer ti ((g2.player ti).drink 2),
            .ok (card, some ((g2.player ti).name ++ " drinkt 2")))
         else
           (g2.setPlayer ci ((g2.player ci).drink 2),
            .ok (card, some ((g2.player ci).name ++ " drinkt 2")))) := by
  rw [Game.play_turn, reveal_next_card_eq hp]
  simp only [hrev]
  rfl

/-! ## Player-slot bookkeeping -/

lemma players_setPlayer (g : Game) (i : Nat) (p : Player) :
    (g.setPlayer i p).players = g.players.set i p := rfl

lemma player_setPlayer_same {g : Game} {i : Nat} (h : i < g.players.length) (p : Player) :
    (g.setPlayer i p).player i = p := by
  rw [Game.setPlayer, Game.player]
  simp [List.getD_eq_getElem?_getD, List.getElem?_set_self', h]

lemma player_setPlayer_other {g : Game} (i j : Nat) (hne : i ≠ j) (p : Player) :
    (g.setPlayer i p).player j = g.player j := by
  rw [Game.setPlayer, Game.player, Game.player]
  simp [List.getD_eq_getElem?_getD, List.getElem?_set_ne hne]

lemma player_pyramid_update (g : Game) (py : Pyramid) (i : Nat) :
    Game.player { g with pyramid := py } i = g.player i := rfl

lemma length_setPlayer (g : Game) (i : Nat) (p : Player) :
    (g.setPlayer i p).players.length = g.players.length := by
  rw [players_setPlayer]
  simp

/-- C5: with `target_believes=True` and claimer, target, chosen index all
present (and the pyramid not exhausted), `play_turn` adds exactly 1 to the
target's drink count, leaves the claimer's hand and revealed set unchanged,
and never uses the chosen index at all. -/
theorem claimC5 (g : Game) (ci ti : Nat) (idx : Int) (card : Card) (py' : Pyramid)
    (hci : ci < g.players.length) (hti : ti < g.players.length)
    (hpy : g.pyramid.next_card = (py', Except.ok (some card))) :
    (∃ s, (g.play_turn (some ci) (some ti) (some idx) true).2 = Except.ok (card, some s)) ∧
    ((g.play_turn (some ci) (some ti) (some idx) true).1.player ti).drinks_taken
        = (g.player ti).drinks_taken + 1 ∧
    ((g.play_turn (some ci) (some ti) (some idx) true).1.player ci).hand
        = (g.player ci).hand ∧
    ((g.play_turn (some ci) (some ti) (some idx) true).1.player ci).revealed_indices
        = (g.player ci).revealed_indices ∧
    (∀ idx' : Int, g.play_turn (some ci) (some ti) (some idx') true
        = g.play_turn (some ci) (some ti) (some idx) true) := by
  have hb := @play_turn_believes g ci ti idx card py' hpy
  have h1 : (g.play_turn (some ci) (some ti) (some idx) true).1
      = Game.setPlayer { g with pyramid := py' } ti
          ((Game.player { g with pyramid := py' } ti).drink 1) := by rw [hb]
  have h2 : (g.play_turn (some ci) (some ti) (some idx) true).2
      = Except.ok (card, some ((Game.player { g with pyramid := py' } ti).name
          ++ " drinkt 1")) := by rw [hb]
  refine ⟨⟨_, h2⟩, ?_, ?_, ?_, ?_⟩
  · rw [h1, @player_setPlayer_same { g with pyramid := py' } ti hti
        ((Game.player { g with pyramid := py' } ti).drink 1)]
    rfl
  · rw [h1]
    by_cases hne : ti = ci
    · subst hne
      rw [@player_setPlayer_same { g with pyramid := py' } ti hti
          ((Game.player { g with pyramid := py' } ti).drink 1)]
      rfl
    · rw [@player_setPlayer_other { g with pyramid := py' } ti ci hne
          ((Game.player { g with pyramid := py' } ti).drink 1)]
      rfl
  · rw [h1]
    by_cases hne : ti = ci
    · subst hne
      rw [@player_setPlayer_same { g with pyramid := py' } ti hti
          ((Game.player { g with pyramid := py' } ti).drink 1)]
      rfl
    · rw [@player_setPlayer_other { g with pyramid := py' } ti ci hne
          ((Game.player { g with pyramid := py' } ti).drink 1)]
      rfl
  · intro idx'
    rw [@play_turn_believes g ci ti idx' card py' hpy, hb]

/-- Witness for C5 on a concrete two-player game: the target's count goes
from 0 to 1. -/
theorem claimC5wit :
    (((Game.mk
        [⟨"A", Deck.newCards.take 4, ∅, 0⟩, ⟨"B", (Deck.newCards.drop 4).take 4, ∅, 0⟩]
        (Pyramid.make ((Deck.newCards.drop 8).take 3) 2) (Deck.newCards.drop 11)
        ⟨[]⟩).play_turn (some 0) (some 1) (some 0) true).1.player 1).drinks_taken
    = ((Game.mk
        [⟨"A", Deck.newCards.take 4, ∅, 0⟩, ⟨"B", (Deck.newCards.drop 4).take 4, ∅, 0⟩]
        (Pyramid.make ((Deck.newCards.drop 8).take 3) 2) (Deck.newCards.drop 11)
        ⟨[]⟩).player 1).drinks_taken + 1 :=
  (claimC5 (Game.mk
      [⟨"A", Deck.newCards.take 4, ∅, 0⟩, ⟨"B", (Deck.newCards.drop 4).take 4, ∅, 0⟩]
      (Pyramid.make ((Deck.newCards.drop 8).take 3) 2) (Deck.newCards.drop 11)
      ⟨[]⟩) 0 1 0 ⟨"9", "hearts"⟩
    ⟨[[⟨"9", "hearts"⟩, ⟨"10", "hearts"⟩], [⟨"J", "hearts"⟩]], 0, 1⟩
    (by decide) (by decide) rfl).2.1

/-- C1: with `target_believes=False`, distinct claimer and target both in
the player list, a non-exhausted pyramid and a chosen index that hits a
card of the claimer's hand: on a rank match the target's drinks rise by
exactly 2 and the claimer's stay put, on a mismatch vice versa, and in both
cases the chosen index is inserted into the claimer's revealed set. -/
theorem claimC1 (g : Game) (ci ti : Nat) (idx : Int) (card c : Card) (py' : Pyramid)
    (hne : ci ≠ ti) (hci : ci < g.players.length) (hti : ti < g.players.length)
    (hpy : g.pyramid.next_card = (py', Except.ok (some card)))
    (hidx : pyGetI (g.player ci).hand idx = some c) :
    (∃ s, (g.play_turn (some ci) (some ti) (some idx) false).2 = Except.ok (card, some s)) ∧
    ((g.play_turn (some ci) (some ti) (some idx) false).1.player ci).revealed_indices
        = insert idx (g.player ci).revealed_indices ∧
    (c.rank = card.rank →
      ((g.play_turn (some ci) (some ti) (some idx) false).1.player ti).drinks_taken
          = (g.player ti).drinks_taken + 2 ∧
      ((g.play_turn (some ci) (some ti) (some idx) false).1.player ci).drinks_taken
          = (g.player ci).drinks_taken) ∧
    (c.rank ≠ card.rank →
      ((g.play_turn (some ci) (some ti) (some idx) false).1.player ci).drinks_taken
          = (g.player ci).drinks_taken + 2 ∧
      ((g.play_turn (some ci) (some ti) (some idx) false).1.player ti).drinks_taken
          = (g.player ti).drinks_taken) := by
  have hrev : Player.reveal idx (Game.player { g with pyramid := py' } ci)
      = ({ g.player ci with
            revealed_indices := insert idx (g.player ci).revealed_indices }, .ok c) := by
    show Player.reveal idx (g.player ci) = _
    simp only [Player.reveal, hidx]
  have hc := @play_turn_challenge_ok g ci ti idx card py'
    { g.player ci with revealed_indices := insert idx (g.player ci).revealed_indices }
    c hpy hrev
  set X : Game := { g with pyramid := py' } with hX
  set cl' : Player :=
    { g.player ci with revealed_indices := insert idx (g.player ci).revealed_indices }
    with hcl
  have hciX : ci < X.players.length := hci
  have htiX : ti < X.players.length := hti
  have hciS : ci < (X.setPlayer ci cl').players.length := by
    rw [length_setPlayer]; exact hci
  have htiS : ti < (X.setPlayer ci cl').players.length := by
    rw [length_setPlayer]; exact hti
  have hg2ci : (X.setPlayer ci cl').player ci = cl' :=
    @player_setPlayer_same X ci hciX cl'
  have hg2ti : (X.setPlayer ci cl').player ti = g.player ti := by
    rw [@player_setPlayer_other X ci ti hne cl']
    rfl
  by_cases hrank : c.rank = card.rank
  · have h1 : (g.play_turn (some ci) (some ti) (some idx) false).1
        = (X.setPlayer ci cl').setPlayer ti
            (((X.setPlayer ci cl').player ti).drink 2) := by
      rw [hc]
      simp only [if_pos hrank]
    have h2 : (g.play_turn (some ci) (some ti) (some idx) false).2
        = Except.ok (card, some (((X.setPlayer ci cl').player ti).name ++ " drinkt 2")) := by
      rw [hc]
      simp only [if_pos hrank]
    refine ⟨⟨_, h2⟩, ?_, ?_, fun hab => absurd hrank hab⟩
    · rw [h1, @player_setPlayer_other (X.setPlayer ci cl') ti ci
          (fun hh => hne hh.symm) (((X.setPlayer ci cl').player ti).drink 2), hg2ci]
    · intro _
      constructor
      · rw [h1, @player_setPlayer_same (X.setPlayer ci cl') ti htiS
            (((X.setPlayer ci cl').player ti).drink 2), hg2ti]
        rfl
      · rw [h1, @player_setPlayer_other (X.setPlayer ci cl') ti ci
            (fun hh => hne hh.symm) (((X.setPlayer ci cl').player ti).drink 2), hg2ci]
  · have h1 : (g.play_turn (some ci) (some ti) (some idx) false).1
        = (X.setPlayer ci cl').setPlayer ci
            (((X.setPlayer ci cl').player ci).drink 2) := by
      rw [hc]
      simp only [if_neg hrank]
    have h2 : (g.play_turn (some ci) (some ti) (some idx) false).2
        = Except.ok (card, some (((X.setPlayer ci cl').player ci).name ++ " drinkt 2")) := by
      rw [hc]
      simp only [if_neg hrank]
    refine ⟨⟨_, h2⟩, ?_, fun hab => absurd hab hrank, fun _ => ⟨?_, ?_⟩⟩
    · rw [h1, @player_setPlayer_same (X.setPlayer ci cl') ci hciS
          (((X.setPlayer ci cl').player ci).drink 2), hg2ci]
      rfl
    · rw [h1, @player_setPlayer_same (X.setPlayer ci cl') ci hciS
          (((X.setPlayer ci cl').player ci).drink 2), hg2ci]
      rfl
    · rw [h1, @player_setPlayer_other (X.setPlayer ci cl') ci ti hne
          (((X.setPlayer ci cl').player ci).drink 2), hg2ti]

/-- Witness for C1 on a concrete two-player game: the claimer's card at
index 0 is an ace, the revealed pyramid card a nine, so the bluff is caught
and index 0 joins the revealed set. -/
theorem claimC1wit :
    (((Game.mk
        [⟨"A", Deck.newCards.take 4, ∅, 0⟩, ⟨"B", (Deck.newCards.drop 4).take 4, ∅, 0⟩]
        (Pyramid.make ((Deck.newCards.drop 8).take 3) 2) (Deck.newCards.drop 11)
        ⟨[]⟩).play_turn (some 0) (some 1) (some 0) false).1.player 0).revealed_indices
    = insert 0 ((Game.mk
        [⟨"A", Deck.newCards.take 4, ∅, 0⟩, ⟨"B", (Deck.newCards.drop 4).take 4, ∅, 0⟩]
        (Pyramid.make ((Deck.newCards.drop 8).take 3) 2) (Deck.newCards.drop 11)
        ⟨[]⟩).player 0).revealed_indices :=
  (claimC1 (Game.mk
      [⟨"A", Deck.newCards.take 4, ∅, 0⟩, ⟨"B", (Deck.newCards.drop 4).take 4, ∅, 0⟩]
      (Pyramid.make ((Deck.newCards.drop 8).take 3) 2) (Deck.newCards.drop 11)
      ⟨[]⟩) 0 1 0 ⟨"9", "hearts"⟩ ⟨"A", "hearts"⟩
    ⟨[[⟨"9", "hearts"⟩, ⟨"10", "hearts"⟩], [⟨"J", "hearts"⟩]], 0, 1⟩
    (by decide) (by decide) (by decide) rfl rfl).2.1

/-! ## Error taxonomy of `next_card`, `reveal`, and `play_turn` -/

lemma next_card_cases (p : Pyramid) :
    (∃ py', p.next_card = (py', Except.error "IndexError")) ∨
    p.next_card = (p, Except.ok none) ∨
    (∃ py' c, p.next_card = (py', Except.ok (some c))) := by
  by_cases h : p.row < p.rows.length
  · cases hg : (p.rows.get ⟨p.row, h⟩).get? p.col with
    | none =>
      left
      refine ⟨p, ?_⟩
      rw [Pyramid.next_card, dif_pos h]
      simp only [hg]
    | some c =>
      right; right
      by_cases hl : (p.rows.get ⟨p.row, h⟩).length ≤ p.col + 1
      · refine ⟨{ p with row := p.row + 1, col := 0 }, c, ?_⟩
        rw [Pyramid.next_card, dif_pos h]
        simp only [hg, if_pos hl]
      · refine ⟨{ p with col := p.col + 1 }, c, ?_⟩
        rw [Pyramid.next_card, dif_pos h]
        simp only [hg, if_neg hl]
  · right; left
    rw [Pyramid.next_card, dif_neg h]

lemma ok_pair_inj {a c : Card} {b d : Option String}
    (h : (Except.ok (a, b) : Except String (Card × Option String)) = Except.ok (c, d)) :
    a = c ∧ b = d := by
  injection h with h'
  exact ⟨congrArg Prod.fst h', congrArg Prod.snd h'⟩

lemma reveal_error_eq {i : Int} {p : Player} {cl' : Player} {e : String}
    (h : Player.reveal i p = (cl', Except.error e)) : e = "IndexError" := by
  rw [Player.reveal] at h
  cases hg : pyGetI p.hand i with
  | none =>
    simp only [hg] at h
    have h2 : (Except.error "IndexError" : Except String Card) = Except.error e :=
      congrArg Prod.snd h
    injection h2 with h3
    exact h3.symm
  | some c =>
    simp only [hg] at h
    have h2 : (Except.ok c : Except String Card) = Except.error e := congrArg Prod.snd h
    exact absurd h2 (by simp)

/-- C8: `play_turn` fails with the "no cards remaining" error exactly when
the pyramid is already exhausted; whenever it returns a value, that value
pairs the revealed pyramid card with an outcome that is absent exactly when
claimer, target or chosen index is absent. -/
theorem claimC8 (g : Game) (c? t? : Option Nat) (i? : Option Int) (b : Bool) :
    ((g.play_turn c? t? i? b).2 = Except.error "No more cards in the pyramid"
        ↔ g.pyramid.next_card.2 = Except.ok none) ∧
    (∀ card o, (g.play_turn c? t? i? b).2 = Except.ok (card, o) →
      (∃ py', g.pyramid.next_card = (py', Except.ok (some card))) ∧
      (o = none ↔ c? = none ∨ t? = none ∨ i? = none)) := by
  rcases next_card_cases g.pyramid with ⟨py', hp⟩ | hp | ⟨py', card, hp⟩
  · rw [play_turn_nc_error hp, hp]
    constructor
    · constructor
      · intro hcontra
        exact absurd hcontra (by simp)
      · intro hcontra
        exact absurd hcontra (by simp)
    · intro card o hcontra
      exact absurd hcontra (by simp)
  · rw [play_turn_exhausted hp, hp]
    constructor
    · exact ⟨fun _ => rfl, fun _ => rfl⟩
    · intro card o hcontra
      exact absurd hcontra (by simp)
  · have hnn : g.pyramid.next_card.2 ≠ Except.ok none := by
      rw [hp]; simp
    rcases hc : c? with _ | ci
    · rw [play_turn_pass hp (Or.inl rfl)]
      exact ⟨⟨fun hcontra => absurd hcontra (by simp), fun hcontra => absurd hcontra hnn⟩,
        fun card' o ho =>
          have hoi := ok_pair_inj ho
          ⟨⟨py', by rw [hp, hoi.1]⟩, by simp [← hoi.2]⟩⟩
    · rcases ht : t? with _ | ti
      · rw [play_turn_pass hp (Or.inr (Or.inl rfl))]
        exact ⟨⟨fun hcontra => absurd hcontra (by simp), fun hcontra => absurd hcontra hnn⟩,
          fun card' o ho =>
            have hoi := ok_pair_inj ho
            ⟨⟨py', by rw [hp, hoi.1]⟩, by simp [← hoi.2]⟩⟩
      · rcases hi : i? with _ | idx
        · rw [play_turn_pass hp (Or.inr (Or.inr rfl))]
          exact ⟨⟨fun hcontra => absurd hcontra (by simp), fun hcontra => absurd hcontra hnn⟩,
            fun card' o ho =>
              have hoi := ok_pair_inj ho
              ⟨⟨py', by rw [hp, hoi.1]⟩, by simp [← hoi.2]⟩⟩
        · cases b
          · rcases hrv : Player.reveal idx (Game.player { g with pyramid := py' } ci)
              with ⟨cl', rv⟩
            cases rv with
            | error e =>
              have he : e = "IndexError" := reveal_error_eq hrv
              subst he
              rw [play_turn_challenge_err hp hrv]
              refine ⟨⟨fun hcontra => absurd hcontra (by simp),
                fun hcontra => absurd hcontra hnn⟩, ?_⟩
              intro card' o hcontra
              exact absurd hcontra (by simp)
            | ok shown =>
              have hco := @play_turn_challenge_ok g ci ti idx card py' cl' shown hp hrv
              by_cases hrank : shown.rank = card.rank
              · rw [hco]
                simp only [if_pos hrank]
                refine ⟨⟨fun hcontra => absurd hcontra (by simp),
                  fun hcontra => absurd hcontra hnn⟩, ?_⟩
                intro card' o ho
                have hoi := ok_pair_inj ho
                exact ⟨⟨py', by rw [hp, hoi.1]⟩, by simp [← hoi.2]⟩
              · rw [hco]
                simp only [if_neg hrank]
                refine ⟨⟨fun hcontra => absurd hcontra (by simp),
                  fun hcontra => absurd hcontra hnn⟩, ?_⟩
                intro card' o ho
                have hoi := ok_pair_inj ho
                exact ⟨⟨py', by rw [hp, hoi.1]⟩, by simp [← hoi.2]⟩
          · rw [play_turn_believes hp]
            refine ⟨⟨fun hcontra => absurd hcontra (by simp),
              fun hcontra => absurd hcontra hnn⟩, ?_⟩
            intro card' o ho
            have hoi := ok_pair_inj ho
            exact ⟨⟨py', by rw [hp, hoi.1]⟩, by simp [← hoi.2]⟩

/-- Witness for C8 on a concrete exhausted game: the pass turn fails with
the "no cards remaining" error. -/
theorem claimC8wit :
    ((Game.mk [Player.new "A", Player.new "B"] ⟨[], 0, 0⟩ [] ⟨[]⟩).play_turn
        none none none true).2 = Except.error "No more cards in the pyramid" :=
  (claimC8 (Game.mk [Player.new "A", Player.new "B"] ⟨[], 0, 0⟩ [] ⟨[]⟩)
    none none none true).1.mpr rfl

/-- Counterexample to C9 as stated: on a 4-card hand, `reveal(-1)` does not
fail — Python's negative indexing wraps around and returns the last card. -/
theorem claimC9cex :
    (Player.reveal (-1) ⟨"A", Deck.newCards.take 4, ∅, 0⟩).2
      = Except.ok ⟨"4", "hearts"⟩ := rfl

/-- C9 (amended): for a 4-card hand, `reveal(index)` succeeds for
`-4 ≤ index ≤ 3` (negative indices count from the end of the hand,
Python-style), marking the index revealed and returning the card at that
(possibly wrapped) position; it fails exactly for `index < -4` or
`index > 3`, and even then the index has been added to the revealed set. -/
theorem claimC9 (p : Player) (index : Int) (h4 : p.hand.length = 4) :
    ((-4 ≤ index ∧ index < 4) →
      ∃ c, pyGetI p.hand index = some c ∧
        Player.reveal index p
          = ({ p with revealed_indices := insert index p.revealed_indices },
             Except.ok c)) ∧
    ((index < -4 ∨ 4 ≤ index) →
      Player.reveal index p
        = ({ p with revealed_indices := insert index p.revealed_indices },
           Except.error "IndexError")) := by
  constructor
  · rintro ⟨h1, h2⟩
    have hsome : ∃ c, pyGetI p.hand index = some c := by
      rw [pyGetI]
      by_cases h0 : 0 ≤ index
      · rw [if_pos h0]
        have hlt : index.toNat < p.hand.length := by rw [h4]; omega
        exact ⟨_, List.get?_eq_get hlt⟩
      · rw [if_neg h0, if_pos (by rw [h4]; omega)]
        have hlt : p.hand.length - (-index).toNat < p.hand.length := by
          rw [h4]; omega
        exact ⟨_, List.get?_eq_get hlt⟩
    obtain ⟨c, hc⟩ := hsome
    refine ⟨c, hc, ?_⟩
    simp only [Player.reveal, hc]
  · intro hout
    have hnone : pyGetI p.hand index = none := by
      rw [pyGetI]
      rcases hout with h1 | h1
      · rw [if_neg (by omega), if_neg (by rw [h4]; omega)]
      · rw [if_pos (by omega)]
        exact List.get?_eq_none.mpr (by rw [h4]; omega)
    simp only [Player.reveal, hnone]

/-- Witness for C9 (amended), applied twice: index 2 succeeds on a 4-card
hand, index 10 fails. -/
theorem claimC9wit :
    (∃ c, pyGetI (Player.mk "A" (Deck.newCards.take 4) ∅ 0).hand 2 = some c ∧
      Player.reveal 2 (Player.mk "A" (Deck.newCards.take 4) ∅ 0)
        = ({ Player.mk "A" (Deck.newCards.take 4) ∅ 0 with
              revealed_indices :=
                insert 2 (Player.mk "A" (Deck.newCards.take 4) ∅ 0).revealed_indices },
           Except.ok c)) ∧
    Player.reveal 10 (Player.mk "A" (Deck.newCards.take 4) ∅ 0)
      = ({ Player.mk "A" (Deck.newCards.take 4) ∅ 0 with
            revealed_indices :=
              insert 10 (Player.mk "A" (Deck.newCards.take 4) ∅ 0).revealed_indices },
         Except.error "IndexError") :=
  ⟨(claimC9 (Player.mk "A" (Deck.newCards.take 4) ∅ 0) 2 rfl).1 ⟨by decide, by decide⟩,
   (claimC9 (Player.mk "A" (Deck.newCards.take 4) ∅ 0) 10 rfl).2 (Or.inr (by decide))⟩

/-- C10: dealing a negative `n` with `-len ≤ n < 0` never trips the
"insufficient cards" guard; it removes and returns the first `len + n`
cards, leaving exactly the last `|n|` cards in the deck. -/
theorem claimC10 (d : Deck) (n : Int)
    (h1 : -(d.cards.length : Int) ≤ n) (h2 : n < 0) :
    (Deck.deal n d).2
        = Except.ok (d.cards.take (d.cards.length - (-n).toNat)) ∧
    (Deck.deal n d).1.cards = d.cards.drop (d.cards.length - (-n).toNat) ∧
    (Deck.deal n d).1.cards.length = (-n).toNat := by
  have hno : ¬ ((d.cards.length : Int) < n) := by omega
  refine ⟨?_, ?_, ?_⟩
  · rw [Deck.deal, if_neg hno]
    show Except.ok (pyTakeTo n d.cards) = _
    rw [pyTakeTo, if_neg (by omega)]
  · rw [Deck.deal, if_neg hno]
    show pyDropTo n d.cards = _
    rw [pyDropTo, if_neg (by omega)]
  · rw [Deck.deal, if_neg hno]
    show (pyDropTo n d.cards).length = _
    rw [pyDropTo, if_neg (by omega), List.length_drop]
    omega

/-- Witness for C10: dealing `-2` from a 5-card deck yields the first 3
cards and keeps the last 2. -/
theorem claimC10wit :
    (Deck.deal (-2) ⟨Deck.newCards.take 5⟩).2
        = Except.ok ((Deck.newCards.take 5).take 3) ∧
    (Deck.deal (-2) ⟨Deck.newCards.take 5⟩).1.cards
        = (Deck.newCards.take 5).drop 3 ∧
    (Deck.deal (-2) ⟨Deck.newCards.take 5⟩).1.cards.length = 2 :=
  claimC10 ⟨Deck.newCards.take 5⟩ (-2) (by decide) (by decide)

/-- Counterexample to C7 as stated: `Player.reveal(10)` on a 4-card hand
fails, yet it has already mutated the revealed set before failing — an
exception beyond the pyramid-cursor one the claim allows. -/
theorem claimC7cex :
    (Player.reveal 10 ⟨"A", Deck.newCards.take 4, ∅, 0⟩).2
        = Except.error "IndexError" ∧
    (Player.reveal 10 ⟨"A", Deck.newCards.take 4, ∅, 0⟩).1.revealed_indices ≠ ∅ := by
  refine ⟨rfl, ?_⟩
  show insert (10 : Int) ∅ ≠ (∅ : Finset Int)
  decide

/-- C7 (amended): a failing `Deck.deal` leaves the deck unchanged and a
failing `Game` construction produces no state at all; but there are two
mutate-before-failure exceptions, not one: `play_turn` advances the
pyramid cursor before the claim step, and `Player.reveal` inserts the
index into the revealed set before the hand access can fail — so a failing
`play_turn` leaves the rest stack and deck unchanged, its pyramid in the
post-`next_card` state, and its players either untouched or with exactly
the claimer's revealed set extended by the failed chosen index. -/
theorem claimC7 :
    (∀ (n : Int) (d : Deck) (e : String),
      (Deck.deal n d).2 = Except.error e → (Deck.deal n d).1 = d) ∧
    (∀ (i : Int) (p : Player) (e : String),
      (Player.reveal i p).2 = Except.error e →
        (Player.reveal i p).1
          = { p with revealed_indices := insert i p.revealed_indices }) ∧
    (∀ (g : Game) (c t : Option Nat) (i : Option Int) (b : Bool) (e : String),
      (g.play_turn c t i b).2 = Except.error e →
        (g.play_turn c t i b).1.pyramid = g.pyramid.next_card.1 ∧
        (g.play_turn c t i b).1.rest_stapel = g.rest_stapel ∧
        (g.play_turn c t i b).1.deck = g.deck ∧
        ((g.play_turn c t i b).1.players = g.players ∨
         ∃ ci idx cl', c = some ci ∧ i = some idx ∧
           Player.reveal idx (Game.player { g with pyramid := g.pyramid.next_card.1 } ci)
               = (cl', Except.error e) ∧
           (g.play_turn c t i b).1.players = g.players.set ci cl')) := by
  refine ⟨?_, ?_, ?_⟩
  · intro n d e he
    rw [Deck.deal] at he ⊢
    by_cases hc : (d.cards.length : Int) < n
    · rw [if_pos hc]
    · rw [if_neg hc] at he
      exact absurd (congrArg id he) (by simp)
  · intro i p e he
    rw [Player.reveal] at he ⊢
    cases hg : pyGetI p.hand i with
    | none => simp only [hg]
    | some c =>
      simp only [hg] at he
      exact absurd he (by simp)
  · intro g c t i b e he
    rcases next_card_cases g.pyramid with ⟨py', hp⟩ | hp | ⟨py', card, hp⟩
    · rw [play_turn_nc_error hp, hp]
      exact ⟨rfl, rfl, rfl, Or.inl rfl⟩
    · rw [play_turn_exhausted hp, hp]
      exact ⟨rfl, rfl, rfl, Or.inl rfl⟩
    · rcases c with _ | ci
      · rw [play_turn_pass hp (Or.inl rfl)] at he
        exact absurd he (by simp)
      · rcases t with _ | ti
        · rw [play_turn_pass hp (Or.inr (Or.inl rfl))] at he
          exact absurd he (by simp)
        · rcases i with _ | idx
          · rw [play_turn_pass hp (Or.inr (Or.inr rfl))] at he
            exact absurd he (by simp)
          · cases b
            · rcases hrv : Player.reveal idx (Game.player { g with pyramid := py' } ci)
                with ⟨cl', rv⟩
              cases rv with
              | error e' =>
                have heq := @play_turn_challenge_err g ci ti idx card py' cl' e' hp hrv
                have he' : e' = e := by
                  rw [heq] at he
                  have := congrArg id he
                  simpa using this
                subst he'
                rw [heq, hp]
                refine ⟨rfl, rfl, rfl, Or.inr ⟨ci, idx, cl', rfl, rfl, hrv, rfl⟩⟩
              | ok shown =>
                have heq := @play_turn_challenge_ok g ci ti idx card py' cl' shown hp hrv
                rw [heq] at he
                by_cases hrank : shown.rank = card.rank
                · simp only [if_pos hrank] at he
                  exact absurd he (by simp)
                · simp only [if_neg hrank] at he
                  exact absurd he (by simp)
            · rw [play_turn_believes hp] at he
              exact absurd he (by simp)

/-- Witness for C7 (amended), applied at three concrete failing calls: an
over-large deal, an out-of-range reveal, and a turn on an exhausted
pyramid. -/
theorem claimC7wit :
    (Deck.deal 5 ⟨Deck.newCards.take 2⟩).1 = ⟨Deck.newCards.take 2⟩ ∧
    (Player.reveal 10 ⟨"A", Deck.newCards.take 4, ∅, 0⟩).1
      = { Player.mk "A" (Deck.newCards.take 4) ∅ 0 with
          revealed_indices :=
            insert 10 (Player.mk "A" (Deck.newCards.take 4) ∅ 0).revealed_indices } ∧
    ((Game.mk [Player.new "A", Player.new "B"] ⟨[], 0, 0⟩ [] ⟨[]⟩).play_turn
        none none none true).1.rest_stapel = [] :=
  ⟨claimC7.1 5 ⟨Deck.newCards.take 2⟩ "Not enough cards to deal" rfl,
   claimC7.2.1 10 ⟨"A", Deck.newCards.take 4, ∅, 0⟩ "IndexError" rfl,
   (claimC7.2.2 (Game.mk [Player.new "A", Player.new "B"] ⟨[], 0, 0⟩ [] ⟨[]⟩)
      none none none true "No more cards in the pyramid" rfl).2.1⟩

/-! ## Characterising `Game.__init__` -/

lemma newCards_length : Deck.newCards.length = 52 := rfl

lemma deal_nonneg (d : Deck) (k : Nat) (h : k ≤ d.cards.length) :
    d.deal (k : Int) = (⟨d.cards.drop k⟩, .ok (d.cards.take k)) := by
  rw [Deck.deal, if_neg (by omega)]
  rw [pyDropTo, if_pos (by omega), pyTakeTo, if_pos (by omega)]
  rfl

lemma dealHands_fresh : ∀ (names : List String) (d : Deck),
    4 * names.length ≤ d.cards.length →
    ∃ ps' d', dealHands (names.map Player.new) d = .ok (ps', d') ∧
      d'.cards = d.cards.drop (4 * names.length) ∧
      ps'.map (fun p => p.name) = names ∧
      ∀ p' ∈ ps', p'.hand.length = 4 ∧ p'.revealed_indices = ∅ ∧
        p'.drinks_taken = 0 := by
  intro names
  induction names with
  | nil =>
    intro d h
    exact ⟨[], d, rfl, by simp, rfl, by simp⟩
  | cons nm rest ih =>
    intro d h
    rw [List.length_cons] at h
    have hlen : 4 ≤ d.cards.length := by omega
    have hdeal : Deck.deal 4 d = (⟨d.cards.drop 4⟩, .ok (d.cards.take 4)) := by
      rw [Deck.deal, if_neg (by omega)]
      rw [pyDropTo, if_pos (by omega), pyTakeTo, if_pos (by omega)]
      rfl
    obtain ⟨ps', d', hrec, hd', hnames, hprops⟩ := ih ⟨d.cards.drop 4⟩ (by
      show 4 * rest.length ≤ (d.cards.drop 4).length
      rw [List.length_drop]
      omega)
    refine ⟨(Player.new nm).receive (d.cards.take 4) :: ps', d', ?_, ?_, ?_, ?_⟩
    · simp only [List.map_cons, dealHands, hdeal, hrec]
    · rw [hd']
      show (d.cards.drop 4).drop (4 * rest.length) = _
      rw [List.drop_drop, List.length_cons]
      congr 1
      omega
    · simp only [List.map_cons, hnames]
      rfl
    · intro p' hp'
      rcases List.mem_cons.mp hp' with rfl | hp'
      · refine ⟨?_, rfl, rfl⟩
        show ([] ++ d.cards.take 4).length = 4
        rw [List.nil_append, List.length_take]
        omega
      · exact hprops p' hp'

lemma init_ok {shuffled : List Card} {names : List String}
    (hlen : shuffled.length = 52) (h2 : 2 ≤ names.length) (h12 : names.length ≤ 12) :
    ∃ g, Game.init shuffled names = .ok g ∧
      g.players.map (fun p => p.name) = names ∧
      g.players.length = names.length ∧
      (∀ p ∈ g.players, p.hand.length = 4 ∧ p.revealed_indices = ∅ ∧
        p.drinks_taken = 0) ∧
      g.pyramid.rows.length = Game.max_pyramid_rows (52 - 4 * names.length) ∧
      g.rest_stapel.length
        = 52 - 4 * names.length - tri (Game.max_pyramid_rows (52 - 4 * names.length)) := by
  have hN : 4 * names.length ≤ 52 := by omega
  obtain ⟨ps', d1, hdh, hd1, hnames, hprops⟩ :=
    dealHands_fresh names ⟨shuffled⟩ (by show 4 * names.length ≤ shuffled.length; omega)
  have hd1len : d1.cards.length = 52 - 4 * names.length := by
    rw [hd1]
    show (shuffled.drop (4 * names.length)).length = _
    rw [List.length_drop, hlen]
  set R := Game.max_pyramid_rows (52 - 4 * names.length) with hR
  have htriR : tri R ≤ 52 - 4 * names.length := by
    rw [tri_eq]
    exact Nat.div_le_of_le_mul
      (by have := max_rows_tri_le (52 - 4 * names.length); linarith)
  have htri2 : R * (R + 1) / 2 = tri R := (tri_eq R).symm
  have hdeal2 : d1.deal ((R * (R + 1) / 2 : Nat) : Int)
      = (⟨d1.cards.drop (tri R)⟩, .ok (d1.cards.take (tri R))) := by
    rw [htri2]
    exact deal_nonneg d1 (tri R) (by omega)
  have hdeal3 : ∀ dd : Deck, dd.deal (dd.cards.length : Int) = (⟨[]⟩, .ok dd.cards) := by
    intro dd
    have h := deal_nonneg dd dd.cards.length (le_refl _)
    rw [h, List.drop_length, List.take_length]
  have hdn : Deck.new = Except.ok ⟨Deck.newCards⟩ := rfl
  have hinit : Game.init shuffled names
      = .ok ⟨ps', Pyramid.make (d1.cards.take (tri R)) R,
             d1.cards.drop (tri R), ⟨[]⟩⟩ := by
    rw [Game.init, if_neg (not_not_intro ⟨h2, h12⟩)]
    simp only [hdn, hdh, hd1len, ← hR, hdeal2, hdeal3]
  refine ⟨_, hinit, hnames, ?_, hprops, ?_, ?_⟩
  · have := congrArg List.length hnames
    rw [List.length_map] at this
    exact this
  · show (Pyramid.make (d1.cards.take (tri R)) R).rows.length = R
    rw [Pyramid.make]
    exact buildRows_length _ R
  · show (d1.cards.drop (tri R)).length = _
    rw [List.length_drop, hd1len]

/-- C2: with a 52-card shuffle, constructing a game from `N` names with
`2 ≤ N ≤ 12` succeeds and yields `N` players of 4 cards each, a pyramid
whose row count is the largest `R` with `R*(R+1)/2 ≤ 52 - 4N`, and a rest
stack of `52 - 4N - R*(R+1)/2` cards; outside that range construction
fails with the descriptive (Dutch) error. -/
theorem claimC2 (names : List String) (shuffled : List Card)
    (hperm : shuffled.Perm Deck.newCards) :
    (2 ≤ names.length ∧ names.length ≤ 12 →
      ∃ g, Game.init shuffled names = .ok g ∧
        g.players.length = names.length ∧
        (∀ p ∈ g.players, p.hand.length = 4) ∧
        g.pyramid.rows.length * (g.pyramid.rows.length + 1) / 2
            ≤ 52 - 4 * names.length ∧
        (∀ R : Nat, R * (R + 1) / 2 ≤ 52 - 4 * names.length →
            R ≤ g.pyramid.rows.length) ∧
        g.rest_stapel.length = 52 - 4 * names.length
            - g.pyramid.rows.length * (g.pyramid.rows.length + 1) / 2) ∧
    (names.length < 2 ∨ 12 < names.length →
      Game.init shuffled names
        = .error "minstens 2, max 12 spelers voor 4 kaarten pp") := by
  have hlen : shuffled.length = 52 := by rw [hperm.length_eq, newCards_length]
  constructor
  · rintro ⟨h2, h12⟩
    obtain ⟨g, hinit, hnames, hcnt, hprops, hrows, hrest⟩ := init_ok hlen h2 h12
    refine ⟨g, hinit, hcnt, fun p hp => (hprops p hp).1, ?_, ?_, ?_⟩
    · rw [hrows]
      exact Nat.div_le_of_le_mul
        (by have := max_rows_tri_le (52 - 4 * names.length); linarith)
    · intro R hR
      rw [hrows]
      exact le_max_rows hR
    · rw [hrest, hrows, tri_eq]
  · intro hbad
    rw [Game.init, if_pos (by omega)]

/-- Witness for C2 with three players and the identity shuffle: 12 cards
dealt, an 8-row pyramid of 36 cards, 4 rest cards. -/
theorem claimC2wit :
    ∃ g, Game.init Deck.newCards ["A", "B", "C"] = .ok g ∧
      g.players.length = 3 ∧
      (∀ p ∈ g.players, p.hand.length = 4) ∧
      g.pyramid.rows.length * (g.pyramid.rows.length + 1) / 2 ≤ 52 - 4 * 3 ∧
      (∀ R : Nat, R * (R + 1) / 2 ≤ 52 - 4 * 3 → R ≤ g.pyramid.rows.length) ∧
      g.rest_stapel.length = 52 - 4 * 3
          - g.pyramid.rows.length * (g.pyramid.rows.length + 1) / 2 :=
  (claimC2 ["A", "B", "C"] Deck.newCards (List.Perm.refl _)).1 ⟨by decide, by decide⟩

/-! ## Save/load round trip -/

lemma zip_overwrite : ∀ (ps qs : List Player),
    qs.map (fun p => p.name) = ps.map (fun p => p.name) →
    List.zipWith
      (fun (d : PlayerData) (p : Player) =>
        { p with hand := d.hand, revealed_indices := d.revealed,
                 drinks_taken := d.drinks_taken })
      (ps.map (fun p =>
        (⟨p.name, p.hand, p.revealed_indices, p.drinks_taken⟩ : PlayerData)))
      qs = ps := by
  intro ps
  induction ps with
  | nil =>
    intro qs h
    simp
  | cons p pt ih =>
    intro qs h
    cases qs with
    | nil => exact absurd h (by simp)
    | cons q qt =>
      simp only [List.map_cons, List.cons.injEq] at h
      obtain ⟨h1, h2⟩ := h
      simp only [List.map_cons, List.zipWith_cons_cons]
      have hqp : Player.mk q.name p.hand p.revealed_indices p.drinks_taken = p := by
        cases p
        cases q
        simp only [Player.mk.injEq]
        exact ⟨h1, trivial, trivial, trivial⟩
      rw [hqp, ih qt h2]

/-- C6: saving any 2–12 player game and loading it back (with any 52-card
fresh shuffle, which load discards wholesale) reproduces every player's
name, hand, revealed set and drink count, the rest stack, and the entire
pyramid including its cursor — so the pending `reveal_next_card` returns
the identical card (in particular one of equal rank). -/
theorem claimC6 (g : Game) (shuffled : List Card)
    (h2 : 2 ≤ g.players.length) (h12 : g.players.length ≤ 12)
    (hlen : shuffled.length = 52) :
    ∃ g', load_game shuffled (save_game g) = .ok g' ∧
      g'.players = g.players ∧
      g'.pyramid = g.pyramid ∧
      g'.rest_stapel = g.rest_stapel ∧
      g'.reveal_next_card.2 = g.reveal_next_card.2 := by
  have hnm : (save_game g).players.map (fun d => d.name)
      = g.players.map (fun p => p.name) := by
    rw [save_game, List.map_map]
    rfl
  have h2' : 2 ≤ ((save_game g).players.map (fun d => d.name)).length := by
    rw [hnm, List.length_map]
    exact h2
  have h12' : ((save_game g).players.map (fun d => d.name)).length ≤ 12 := by
    rw [hnm, List.length_map]
    exact h12
  obtain ⟨gI, hinit, hInames, hIcnt, hIprops, hIrows, hIrest⟩ :=
    init_ok hlen h2' h12'
  have hzip := zip_overwrite g.players gI.players (by rw [hInames, hnm])
  have hload : load_game shuffled (save_game g)
      = .ok { gI with
              players := List.zipWith
                (fun (d : PlayerData) (p : Player) =>
                  { p with hand := d.hand, revealed_indices := d.revealed,
                           drinks_taken := d.drinks_taken })
                (save_game g).players gI.players,
              pyramid := ⟨(save_game g).pyramidRows, (save_game g).posRow,
                          (save_game g).posCol⟩,
              rest_stapel := (save_game g).rest_stapel } := by
    rw [load_game, hinit]
  have hps : List.zipWith
      (fun (d : PlayerData) (p : Player) =>
        { p with hand := d.hand, revealed_indices := d.revealed,
                 drinks_taken := d.drinks_taken })
      (save_game g).players gI.players = g.players := by
    have hsd : (save_game g).players = g.players.map (fun p =>
        (⟨p.name, p.hand, p.revealed_indices, p.drinks_taken⟩ : PlayerData)) := rfl
    rw [hsd]
    exact hzip
  refine ⟨_, hload, hps, ?_, rfl, ?_⟩
  · show (⟨(save_game g).pyramidRows, (save_game g).posRow,
          (save_game g).posCol⟩ : Pyramid) = g.pyramid
    rfl
  · have e1 : ∀ gg : Game, gg.reveal_next_card.2 = gg.pyramid.next_card.2 :=
      fun _ => rfl
    rw [e1, e1]
    rfl

/-- Witness for C6 on a concrete two-player game saved and reloaded with
the identity shuffle. -/
theorem claimC6wit :
    ∃ g', load_game Deck.newCards (save_game (Game.mk
        [⟨"A", Deck.newCards.take 4, ∅, 0⟩, ⟨"B", (Deck.newCards.drop 4).take 4, ∅, 0⟩]
        (Pyramid.make ((Deck.newCards.drop 8).take 3) 2) (Deck.newCards.drop 11)
        ⟨[]⟩)) = .ok g' ∧
      g'.players = (Game.mk
        [⟨"A", Deck.newCards.take 4, ∅, 0⟩, ⟨"B", (Deck.newCards.drop 4).take 4, ∅, 0⟩]
        (Pyramid.make ((Deck.newCards.drop 8).take 3) 2) (Deck.newCards.drop 11)
        ⟨[]⟩).players ∧
      g'.pyramid = (Game.mk
        [⟨"A", Deck.newCards.take 4, ∅, 0⟩, ⟨"B", (Deck.newCards.drop 4).take 4, ∅, 0⟩]
        (Pyramid.make ((Deck.newCards.drop 8).take 3) 2) (Deck.newCards.drop 11)
        ⟨[]⟩).pyramid ∧
      g'.rest_stapel = (Game.mk
        [⟨"A", Deck.newCards.take 4, ∅, 0⟩, ⟨"B", (Deck.newCards.drop 4).take 4, ∅, 0⟩]
        (Pyramid.make ((Deck.newCards.drop 8).take 3) 2) (Deck.newCards.drop 11)
        ⟨[]⟩).rest_stapel ∧
      g'.reveal_next_card.2 = (Game.mk
        [⟨"A", Deck.newCards.take 4, ∅, 0⟩, ⟨"B", (Deck.newCards.drop 4).take 4, ∅, 0⟩]
        (Pyramid.make ((Deck.newCards.drop 8).take 3) 2) (Deck.newCards.drop 11)
        ⟨[]⟩).reveal_next_card.2 :=
  claimC6 (Game.mk
      [⟨"A", Deck.newCards.take 4, ∅, 0⟩, ⟨"B", (Deck.newCards.drop 4).take 4, ∅, 0⟩]
      (Pyramid.make ((Deck.newCards.drop 8).take 3) 2) (Deck.newCards.drop 11)
      ⟨[]⟩) Deck.newCards (by decide) (by decide) rfl

end DrankSpel
